import Mathlib

/-!
Verification of the `Cookie` class of this repository (src/lib/main.umd.js,
TypeScript source `Cookie` with methods `ttl`, `set`, `get`, `remember`,
`all`, `remove`, `clear`, `has`, `hasAny`, `isEmpty`, `isNotEmpty`, `keys`,
`count`, `touch`, `dump`).

The embedding is shallow:

* JavaScript values that can flow through the cookie layer are modelled by
  `JSValue`: `undefined`, any JSON-representable value (`JValue`), and a
  non-JSON-serializable object (`badObj`, standing for e.g. a circular
  reference, on which the host `JSON.stringify` throws).
* The host builtins `JSON.stringify` / `JSON.parse` are modelled by an
  executable printer `printJson` and parser `jsonParse` over `JValue`.
  Numbers are modelled as integers (floating point is out of scope); the
  parser implements the JSON grammar (whitespace, literals, integers with
  the leading-zero rule, strings with escapes, arrays, objects).
* The host `Date` is modelled by integer milliseconds since the epoch;
  `Date.prototype.toUTCString` is implemented as `toUTCString` below.
  The host date-string parser used by `new Date(string)` is passed in as an
  explicit `dateParse` argument, so theorems hold for every host parser.
* `document.cookie` reads are modelled by the cookie string `doc`; writes
  are collected in a `writes` journal (the string handed to the storage
  collaborator).  The mutable static field `Cookie.#ttl` is the explicit
  `defaultTtl` argument, and `Date.now()` is the explicit `now` argument.
* The regular expression used by `Cookie.get` is modelled literally by
  `regexExec` (leftmost match of `(^|;\s*)key=([^;]*)` with the key taken
  literally, as the source escapes all special characters in it).
-/

/- JSON values, with integer numbers.  `JArr` and `JObj` are the spine of
arrays and of objects (ordered field lists). -/
mutual
inductive JValue where
  | jnull : JValue
  | jbool (b : Bool) : JValue
  | jnum (n : Int) : JValue
  | jstr (s : String) : JValue
  | jarr (a : JArr) : JValue
  | jobj (o : JObj) : JValue
deriving DecidableEq
inductive JArr where
  | nil : JArr
  | cons (hd : JValue) (tl : JArr) : JArr
deriving DecidableEq
inductive JObj where
  | nil : JObj
  | cons (key : String) (val : JValue) (tl : JObj) : JObj
deriving DecidableEq
end

/-- Decimal digits with explicit fuel (structurally recursive so that it
reduces in the kernel); `fuel ≥ n` suffices. -/
def natDigsGo : Nat → Nat → List Char
  | 0, _ => []
  | fuel + 1, n =>
    if n = 0 then [] else natDigsGo fuel (n / 10) ++ [Char.ofNat (48 + n % 10)]

/-- Decimal digits of `n` (empty for 0); auxiliary for number printing. -/
def natDigs (n : Nat) : List Char :=
  natDigsGo n n

/-- Decimal representation of a natural number (JavaScript
`Number.prototype.toString` on nonnegative integers). -/
def natToDigits (n : Nat) : List Char :=
  if n = 0 then ['0'] else natDigs n

/-- Decimal representation of an integer (JavaScript
`Number.prototype.toString` on integral numbers). -/
def intDigits (n : Int) : List Char :=
  if n < 0 then '-' :: natToDigits n.natAbs else natToDigits n.natAbs

/-- Hex digit character (lowercase), for `\u00XX` escapes. -/
def hexDigit (n : Nat) : Char :=
  if n < 10 then Char.ofNat (48 + n) else Char.ofNat (87 + n)

/-- JSON string escaping of one character, as performed by the host
`JSON.stringify`: `"` and `\` and the control characters below 0x20 are
escaped (`\b \t \n \f \r` shorthands, otherwise `\u00XX`). -/
def escapeChar (c : Char) : List Char :=
  if c = '"' then ['\\', '"']
  else if c = '\\' then ['\\', '\\']
  else if c = '\x08' then ['\\', 'b']
  else if c = '\x09' then ['\\', 't']
  else if c = '\x0a' then ['\\', 'n']
  else if c = '\x0c' then ['\\', 'f']
  else if c = '\x0d' then ['\\', 'r']
  else if c.toNat < 32 then
    ['\\', 'u', '0', '0', hexDigit (c.toNat / 16), hexDigit (c.toNat % 16)]
  else [c]

/-- JSON string escaping of a character list. -/
def escList : List Char → List Char
  | [] => []
  | c :: cs => escapeChar c ++ escList cs

/-- Printed form of a JSON string literal (quotes plus escaped body). -/
def printStr (s : String) : List Char :=
  '"' :: escList s.toList ++ ['"']

/- The host `JSON.stringify` (no spacing), as character lists. -/
mutual
def printVal : JValue → List Char
  | .jnull => ['n', 'u', 'l', 'l']
  | .jbool true => ['t', 'r', 'u', 'e']
  | .jbool false => ['f', 'a', 'l', 's', 'e']
  | .jnum n => intDigits n
  | .jstr s => printStr s
  | .jarr a => '[' :: printArr a ++ [']']
  | .jobj o => '\x7b' :: printObj o ++ ['\x7d']
termination_by structural v => v
def printArr : JArr → List Char
  | .nil => []
  | .cons v .nil => printVal v
  | .cons v tl => printVal v ++ ',' :: printArr tl
termination_by structural a => a
def printObj : JObj → List Char
  | .nil => []
  | .cons k v .nil => printStr k ++ ':' :: printVal v
  | .cons k v tl => printStr k ++ ':' :: printVal v ++ ',' :: printObj tl
termination_by structural o => o
end

/-- The host `JSON.stringify` as a `String`. -/
def printJson (v : JValue) : String :=
  String.mk (printVal v)

/-- JSON whitespace (the four characters the JSON grammar allows). -/
def isJsonWs (c : Char) : Bool :=
  c = ' ' || c = '\t' || c = '\n' || c = '\r'

/-- Skip leading JSON whitespace. -/
def skipWs : List Char → List Char
  | [] => []
  | c :: cs => if isJsonWs c then skipWs cs else c :: cs

/-- Strip an expected literal prefix, returning the remainder. -/
def stripLit : List Char → List Char → Option (List Char)
  | [], cs => some cs
  | _ :: _, [] => none
  | l :: ls, c :: cs => if c = l then stripLit ls cs else none

/-- Is `c` a hexadecimal digit? -/
def isHex (c : Char) : Bool :=
  c.isDigit || ('a' ≤ c && c ≤ 'f') || ('A' ≤ c && c ≤ 'F')

/-- Value of a hexadecimal digit character. -/
def hexVal (c : Char) : Nat :=
  if c.isDigit then c.toNat - 48
  else if 'a' ≤ c && c ≤ 'f' then c.toNat - 87
  else c.toNat - 55

/-- Accumulating decimal value of a digit-character list. -/
def digitsVal : Nat → List Char → Nat
  | acc, [] => acc
  | acc, c :: cs => digitsVal (acc * 10 + (c.toNat - 48)) cs

/-- Parse a JSON integer literal (a run of digits, rejecting a redundant
leading zero as the JSON grammar does). -/
def pNat (cs : List Char) : Option (Nat × List Char) :=
  let ds := cs.takeWhile (fun c => c.isDigit)
  let rest := cs.dropWhile (fun c => c.isDigit)
  if ds = [] then none
  else if 1 < ds.length ∧ ds.head? = some '0' then none
  else some (digitsVal 0 ds, rest)

/-- Parse the body of a JSON string literal (after the opening quote),
returning the unescaped characters and the remainder after the closing
quote.  Unescaped control characters are rejected, as in JSON; surrogate
`\u` escapes are rejected because Lean strings contain only scalar values
(a modelling restriction that no claim touches). -/
def pStrBody : List Char → Option (List Char × List Char)
  | [] => none
  | c :: cs =>
    if c = '"' then some ([], cs)
    else if c = '\\' then
      match cs with
      | [] => none
      | e :: cs2 =>
        if e = '"' then (pStrBody cs2).map (fun p => ('"' :: p.1, p.2))
        else if e = '\\' then (pStrBody cs2).map (fun p => ('\\' :: p.1, p.2))
        else if e = '/' then (pStrBody cs2).map (fun p => ('/' :: p.1, p.2))
        else if e = 'b' then (pStrBody cs2).map (fun p => ('\x08' :: p.1, p.2))
        else if e = 'f' then (pStrBody cs2).map (fun p => ('\x0c' :: p.1, p.2))
        else if e = 'n' then (pStrBody cs2).map (fun p => ('\x0a' :: p.1, p.2))
        else if e = 'r' then (pStrBody cs2).map (fun p => ('\x0d' :: p.1, p.2))
        else if e = 't' then (pStrBody cs2).map (fun p => ('\x09' :: p.1, p.2))
        else if e = 'u' then
          match cs2 with
          | h1 :: h2 :: h3 :: h4 :: cs3 =>
            if isHex h1 && isHex h2 && isHex h3 && isHex h4 then
              let n := hexVal h1 * 4096 + hexVal h2 * 256 + hexVal h3 * 16 + hexVal h4
              if 0xd800 ≤ n ∧ n ≤ 0xdfff then none
              else (pStrBody cs3).map (fun p => (Char.ofNat n :: p.1, p.2))
            else none
          | _ => none
        else none
    else if c.toNat < 32 then none
    else (pStrBody cs).map (fun p => (c :: p.1, p.2))

/- JSON value parser with explicit fuel (the host `JSON.parse`, with
integer numbers).  `pElems` parses a nonempty element list up to and
including the closing bracket; `pMembers` likewise for object members. -/
mutual
def pVal : Nat → List Char → Option (JValue × List Char)
  | 0, _ => none
  | _ + 1, [] => none
  | fuel + 1, c :: cs =>
    if c = 'n' then (stripLit ['u', 'l', 'l'] cs).map (fun r => (.jnull, r))
    else if c = 't' then (stripLit ['r', 'u', 'e'] cs).map (fun r => (.jbool true, r))
    else if c = 'f' then (stripLit ['a', 'l', 's', 'e'] cs).map (fun r => (.jbool false, r))
    else if c = '"' then (pStrBody cs).map (fun p => (.jstr (String.mk p.1), p.2))
    else if c = '[' then
      match skipWs cs with
      | ']' :: r => some (.jarr .nil, r)
      | cs1 => (pElems fuel cs1).map (fun p => (.jarr p.1, p.2))
    else if c = '\x7b' then
      match skipWs cs with
      | '\x7d' :: r => some (.jobj .nil, r)
      | cs1 => (pMembers fuel cs1).map (fun p => (.jobj p.1, p.2))
    else if c = '-' then (pNat cs).map (fun p => (.jnum (-(p.1 : Int)), p.2))
    else if c.isDigit then (pNat (c :: cs)).map (fun p => (.jnum (p.1 : Int), p.2))
    else none
termination_by structural fuel => fuel
def pElems : Nat → List Char → Option (JArr × List Char)
  | 0, _ => none
  | fuel + 1, cs =>
    match pVal fuel cs with
    | none => none
    | some (v, r) =>
      match skipWs r with
      | ',' :: r2 => (pElems fuel (skipWs r2)).map (fun p => (.cons v p.1, p.2))
      | ']' :: r2 => some (.cons v .nil, r2)
      | _ => none
termination_by structural fuel => fuel
def pMembers : Nat → List Char → Option (JObj × List Char)
  | 0, _ => none
  | fuel + 1, cs =>
    match cs with
    | '"' :: cs1 =>
      match pStrBody cs1 with
      | none => none
      | some (k, cs2) =>
        match skipWs cs2 with
        | ':' :: cs3 =>
          match pVal fuel (skipWs cs3) with
          | none => none
          | some (v, cs4) =>
            match skipWs cs4 with
            | ',' :: cs5 => (pMembers fuel (skipWs cs5)).map
                (fun p => (.cons (String.mk k) v p.1, p.2))
            | '\x7d' :: cs5 => some (.cons (String.mk k) v .nil, cs5)
            | _ => none
        | _ => none
    | _ => none
termination_by structural fuel => fuel
end

/-- The host `JSON.parse` on a string: leading whitespace, one value,
trailing whitespace, end of input; `none` models a thrown `SyntaxError`. -/
def jsonParse (s : String) : Option JValue :=
  match pVal (s.length + 1) (skipWs s.toList) with
  | some (v, r) => if skipWs r = [] then some v else none
  | none => none

/-- A JavaScript value as it can reach the `Cookie` API: `undefined`, a
JSON-representable value (`null`, booleans, integral numbers, strings,
arrays, objects), or a non-JSON-serializable object (`badObj`, e.g. an
object with a circular reference) on which the host `JSON.stringify`
throws. -/
inductive JSValue where
  | undef : JSValue
  | jval (j : JValue) : JSValue
  | badObj : JSValue
deriving DecidableEq

/-- The host `JSON.stringify` at the `JSValue` level: `none` models a
thrown `TypeError` (circular structure). -/
def jsJSONStringify : JSValue → Option String
  | .jval j => some (printJson j)
  | .badObj => none
  | .undef => none

/-- `Cookie.#stringify` (src/lib/main.umd.js, TS lines 563-577): empty
string for `null`/`undefined`; `toString` for strings, numbers and
booleans; otherwise `JSON.stringify` with a thrown error caught and
converted to the empty string. -/
def cookieStringify : JSValue → String
  | .undef => ""
  | .jval .jnull => ""
  | .jval (.jstr s) => s
  | .jval (.jnum n) => String.mk (intDigits n)
  | .jval (.jbool b) => cond b "true" "false"
  | v => (jsJSONStringify v).getD ""

/-- The decode step shared by the read operations (`Cookie.get`, TS lines
388-392): `JSON.parse` the raw cookie value, returning the raw string
unchanged if parsing throws. -/
def decodeRaw (raw : String) : JSValue :=
  match jsonParse raw with
  | some j => .jval j
  | none => .jval (.jstr raw)

/-- JavaScript truthiness of a modelled value (`NaN` is outside the
integer number model; every object is truthy). -/
def jsTruthy : JSValue → Bool
  | .undef => false
  | .badObj => true
  | .jval .jnull => false
  | .jval (.jbool b) => b
  | .jval (.jnum n) => decide (n ≠ 0)
  | .jval (.jstr s) => decide (s ≠ "")
  | .jval (.jarr _) => true
  | .jval (.jobj _) => true

/-- The ECMAScript `\s` character class (WhiteSpace plus LineTerminator),
used by the `(^|;\s*)` part of the lookup pattern in `Cookie.get`. -/
def isRegexSpace (c : Char) : Bool :=
  c = ' ' || c = '\t' || c = '\n' || c = '\r' || c = '\x0b' || c = '\x0c' ||
  c.toNat = 0xa0 || c.toNat = 0x1680 ||
  (0x2000 ≤ c.toNat && c.toNat ≤ 0x200a) ||
  c.toNat = 0x2028 || c.toNat = 0x2029 || c.toNat = 0x202f ||
  c.toNat = 0x205f || c.toNat = 0x3000 || c.toNat = 0xfeff

/-- Try to match the literal key, then `=`, then capture `[^;]*`.  The key
is matched literally: the source escapes every regex metacharacter in it
before building the pattern (TS line 378). -/
def tryKey (key cs : List Char) : Option (List Char) :=
  match stripLit key cs with
  | some ('=' :: rest) => some (rest.takeWhile (fun c => c ≠ ';'))
  | _ => none

/-- Backtracking for the greedy `\s*` after a `;`: try the position after
`j` whitespace characters, longest first. -/
def tryWs (key : List Char) : Nat → List Char → Option (List Char)
  | 0, cs => tryKey key cs
  | j + 1, cs =>
    match tryKey key (cs.drop (j + 1)) with
    | some v => some v
    | none => tryWs key j cs

/-- Scan the cookie string for the first `;` from which `;\s*key=([^;]*)`
matches, mirroring the regex engine scanning match start positions left to
right. -/
def scanSemis (key : List Char) : List Char → Option (List Char)
  | [] => none
  | c :: cs =>
    if c = ';' then
      match tryWs key ((cs.takeWhile isRegexSpace).length) cs with
      | some v => some v
      | none => scanSemis key cs
    else scanSemis key cs

/-- `new RegExp(`(^|;\s*)key=([^;]*)`).exec(doc)`, returning the second
capture group (TS line 380): the `^` alternative at the start of the
string, then every `;`-anchored position. -/
def regexExec (doc key : String) : Option String :=
  match tryKey key.toList doc.toList with
  | some v => some (String.mk v)
  | none => (scanSemis key.toList doc.toList).map String.mk

/-- Civil date from days since 1970-01-01 (proleptic Gregorian):
`(year, month 1-12, day 1-31)`. -/
def civilFromDays (z0 : Int) : Int × Nat × Nat :=
  let z := z0 + 719468
  let era : Int := Int.fdiv z 146097
  let doe : Nat := (z - era * 146097).toNat
  let yoe : Nat := (doe - doe / 1460 + doe / 36524 - doe / 146096) / 365
  let y : Int := (yoe : Int) + era * 400
  let doy : Nat := doe - (365 * yoe + yoe / 4 - yoe / 100)
  let mp : Nat := (5 * doy + 2) / 153
  let d : Nat := doy - (153 * mp + 2) / 5 + 1
  let m : Nat := if mp < 10 then mp + 3 else mp - 9
  (if m ≤ 2 then y + 1 else y, m, d)

/-- Decimal string of a natural number. -/
def natStr (n : Nat) : String :=
  String.mk (natToDigits n)

/-- Two-digit zero-padded field of `toUTCString`. -/
def pad2 (n : Nat) : String :=
  if n < 10 then "0" ++ natStr n else natStr n

/-- Year field of `toUTCString` (padded to four digits). -/
def yearStr (y : Int) : String :=
  let a := y.natAbs
  let p := if a < 10 then "000" ++ natStr a
           else if a < 100 then "00" ++ natStr a
           else if a < 1000 then "0" ++ natStr a
           else natStr a
  if y < 0 then "-" ++ p else p

/-- Weekday name, 0 = Sunday. -/
def dayName : Nat → String
  | 0 => "Sun" | 1 => "Mon" | 2 => "Tue" | 3 => "Wed"
  | 4 => "Thu" | 5 => "Fri" | _ => "Sat"

/-- Month name, 1 = January. -/
def monthName : Nat → String
  | 1 => "Jan" | 2 => "Feb" | 3 => "Mar" | 4 => "Apr"
  | 5 => "May" | 6 => "Jun" | 7 => "Jul" | 8 => "Aug"
  | 9 => "Sep" | 10 => "Oct" | 11 => "Nov" | _ => "Dec"

/-- The host `Date.prototype.toUTCString` on a timestamp in milliseconds
since the epoch: `Www, DD Mon YYYY HH:MM:SS GMT`. -/
def toUTCString (t : Int) : String :=
  let days : Int := Int.fdiv t 86400000
  let ms : Nat := (Int.fmod t 86400000).toNat
  let hh : Nat := ms / 3600000
  let mm : Nat := ms % 3600000 / 60000
  let ss : Nat := ms % 60000 / 1000
  let wd : Nat := (Int.fmod (days + 4) 7).toNat
  let c := civilFromDays days
  dayName wd ++ ", " ++ pad2 c.2.2 ++ " " ++ monthName c.2.1 ++ " " ++
    yearStr c.1 ++ " " ++ pad2 hh ++ ":" ++ pad2 mm ++ ":" ++ pad2 ss ++ " GMT"

/-- The `expires` attribute as supplied by a caller: a `Date` object
(timestamp in ms) or a date string. -/
inductive ExpiresAttr where
  | date (ms : Int) : ExpiresAttr
  | str (s : String) : ExpiresAttr
deriving DecidableEq

/-- The `sameSite` cookie attribute. -/
inductive SameSite where
  | Strict : SameSite
  | Lax : SameSite
  | NoneSite : SameSite
deriving DecidableEq

/-- Wire casing of the `sameSite` attribute. -/
def SameSite.toStr : SameSite → String
  | .Strict => "Strict"
  | .Lax => "Lax"
  | .NoneSite => "None"

/-- The `CookieAttributes` record (src/main.ts).  `none` stands for an
absent or `null` field; `secure := false` covers both `false` and absent
(identical under the truthiness tests the source performs). -/
structure CookieAttributes where
  ttl : Option Int := none
  expires : Option ExpiresAttr := none
  path : Option String := none
  domain : Option String := none
  sameSite : Option SameSite := none
  secure : Bool := false
deriving DecidableEq

/-- Result of a call that can throw (`Cookie.set` and its callers). -/
inductive JsResult (α : Type) where
  | thrown (msg : String) : JsResult α
  | ok (v : α) : JsResult α
deriving DecidableEq

/-- Outcome of one `Cookie.set` call: the returned-or-thrown result, the
strings handed to the storage collaborator (`document.cookie = ...`), and
the caller-visible state of the `attributes` object, which the source
mutates in place (TS lines 333-337). -/
structure SetOutcome where
  result : JsResult String
  writes : List String
  attrs : CookieAttributes
deriving DecidableEq

/-- `Cookie.#expires` (TS lines 586-602): falsy input (absent, or the
empty string) gives no expiration; a `Date` passes through; a string goes
through the host date parser (`dateParse` models `new Date(string)`
including its `NaN` results as `none`). -/
def expiresNorm (dateParse : String → Option Int) : Option ExpiresAttr → Option Int
  | none => none
  | some (.date t) => some t
  | some (.str s) => if s = "" then none else dateParse s

/-- Segment contributed by a resolved expiration instant. -/
def expSeg : Option Int → String
  | some t => "; expires=" ++ toUTCString t
  | none => ""

/-- The segments appended after the expiration: `path`, `domain`,
`SameSite`, `Secure` (TS lines 344-358), in source order.  The `path` and
`domain` guards are JavaScript truthiness, so an empty string is skipped. -/
def attrTail (a : CookieAttributes) : String :=
  (match a.path with
   | some p => if p = "" then "" else "; path=" ++ p
   | none => "") ++
  (match a.domain with
   | some d => if d = "" then "" else "; domain=" ++ d
   | none => "") ++
  (match a.sameSite with
   | some ss => "; SameSite=" ++ ss.toStr
   | none => "") ++
  (if a.sameSite = some SameSite.NoneSite ∨ a.secure = true then "; Secure" else "")

/-- The base segment of the formatted entry (TS lines 329-331): the bare
key for `null`/`undefined` values, else `key=stringify(value)`. -/
def baseSeg (key : String) (value : JSValue) : String :=
  match value with
  | .undef => key
  | .jval .jnull => key
  | v => key ++ "=" ++ cookieStringify v

/-- `attributes.ttl ??= Cookie.#ttl` (TS line 333): the per-call TTL with
the process-wide default substituted when it is `null`/absent. -/
def resolveTtl (attrTtl defaultTtl : Option Int) : Option Int :=
  match attrTtl with
  | some t => some t
  | none => defaultTtl

/-- The final expiration instant (TS lines 334-338): normalize the
supplied `expires`, then let a truthy (non-zero, non-null) resolved TTL
override it with `now + ttl` seconds. -/
def resolveExpires (dateParse : String → Option Int) (now : Int) (ttl : Option Int)
    (e : Option ExpiresAttr) : Option Int :=
  match ttl with
  | some t => if t = 0 then expiresNorm dateParse e else some (now + t * 1000)
  | none => expiresNorm dateParse e

/-- The error message thrown on the SameSite/Secure conflict (TS line
361). -/
def sameSiteErr : String :=
  "The \"secure\" attribute must be set to \"true\" if \"sameSite\" is set to \"None\"."

namespace Cookie

/-- `Cookie.set` (TS lines 328-367).  `now` is `Date.now()`, `defaultTtl`
the static `Cookie.#ttl`, `dateParse` the host date-string parser.  The
base segment is the bare key for `null`/`undefined` values, else
`key=stringify(value)`; `attributes.ttl` falls back to the default TTL; a
truthy (non-zero, non-null) resolved TTL overrides any expiration with
`now + ttl seconds`; the conflict check throws after the string is built
but before the write, so a thrown call hands nothing to the collaborator. -/
def set (dateParse : String → Option Int) (now : Int) (defaultTtl : Option Int)
    (key : String) (value : JSValue) (attributes : CookieAttributes) : SetOutcome :=
  let ttl : Option Int := resolveTtl attributes.ttl defaultTtl
  let expires : Option Int := resolveExpires dateParse now ttl attributes.expires
  let cookie : String := baseSeg key value ++ expSeg expires ++ attrTail attributes
  let attrsOut : CookieAttributes :=
    { attributes with ttl := ttl, expires := expires.map ExpiresAttr.date }
  if attributes.sameSite = some SameSite.NoneSite ∧ attributes.secure = false then
    { result := .thrown sameSiteErr, writes := [], attrs := attrsOut }
  else
    { result := .ok cookie, writes := [cookie], attrs := attrsOut }

/-- `Cookie.get` (TS lines 376-393) with the regex lookup modelled by
`regexExec`.  A missing key resolves to `fallback ?? null`; a found raw
value goes through the shared decode step.  (A callable fallback is not
modelled; no claim involves one.) -/
def get (doc : String) (key : String) (fallback : JSValue) : JSValue :=
  match regexExec doc key with
  | none => if fallback = .undef then .jval .jnull else fallback
  | some raw => decodeRaw raw

/-- `Cookie.has` (TS lines 469-471): double negation of `get` with the
default `null` fallback. -/
def has (doc : String) (key : String) : Bool :=
  jsTruthy (get doc key (.jval .jnull))

/-- The attributes accepted by `remove`, `clear` and `touch`: only `path`
(TS `Pick<CookieAttributes, 'path'>`). -/
structure PathAttr where
  path : Option String := none
deriving DecidableEq

/-- `Cookie.remove` (TS lines 447-449): `set` with the empty-string value
and the caller attributes widened with `expires: new Date(0)`. -/
def remove (dateParse : String → Option Int) (now : Int) (defaultTtl : Option Int)
    (key : String) (a : PathAttr) : SetOutcome :=
  set dateParse now defaultTtl key (.jval (.jstr ""))
    { path := a.path, expires := some (.date 0) }

/-- `Cookie.touch` (TS lines 535-545): read the key (default `null`
fallback); on `null` do nothing (`none`); otherwise resolve the `ttl`
parameter against the default TTL and re-`set` the decoded value with
`{ ttl, ...attributes }`. -/
def touch (dateParse : String → Option Int) (now : Int) (defaultTtl : Option Int)
    (doc : String) (key : String) (ttl : Option Int) (a : PathAttr) : Option SetOutcome :=
  let cookie := get doc key (.jval .jnull)
  if cookie = .jval .jnull then none
  else
    let t : Option Int :=
      match ttl with
      | some x => some x
      | none => defaultTtl
    some (set dateParse now defaultTtl key cookie { ttl := t, path := a.path })

/-- Outcome of one `Cookie.remember` call; `producerCalls` counts the
invocations of the callback (the source calls it exactly once, inside the
miss branch). -/
structure RememberOutcome where
  result : JsResult JSValue
  writes : List String
  producerCalls : Nat
deriving DecidableEq

/-- `Cookie.remember` (TS lines 404-412): `get` with the default `null`
fallback; on `null`, call the producer and return what `set` returns (the
formatted cookie string); otherwise return the decoded value without
calling the producer. -/
def remember (dateParse : String → Option Int) (now : Int) (defaultTtl : Option Int)
    (doc : String) (key : String) (producer : Unit → JSValue)
    (attributes : CookieAttributes) : RememberOutcome :=
  let cookie := get doc key (.jval .jnull)
  if cookie = .jval .jnull then
    let o := set dateParse now defaultTtl key (producer ()) attributes
    { result :=
        match o.result with
        | .ok s => .ok (.jval (.jstr s))
        | .thrown m => .thrown m,
      writes := o.writes, producerCalls := 1 }
  else
    { result := .ok cookie, writes := [], producerCalls := 0 }

end Cookie

/-! ### Round-trip of the JSON codec model -/

theorem hexVal_hexDigit : ∀ m, m < 16 → hexVal (hexDigit m) = m ∧ isHex (hexDigit m) = true := by
  decide

theorem digitChar_spec :
    ∀ m, m < 10 → (Char.ofNat (48 + m)).toNat = 48 + m ∧ (Char.ofNat (48 + m)).isDigit = true := by
  decide

theorem digitChar_ne_zero : ∀ r, 1 ≤ r → r < 10 → Char.ofNat (48 + r) ≠ '0' := by
  decide

theorem digitsVal_append (xs ys : List Char) :
    ∀ a, digitsVal a (xs ++ ys) = digitsVal (digitsVal a xs) ys := by
  induction xs with
  | nil => intro a; rfl
  | cons c cs ih =>
    intro a
    show digitsVal (a * 10 + (c.toNat - 48)) (cs ++ ys) =
      digitsVal (digitsVal (a * 10 + (c.toNat - 48)) cs) ys
    exact ih _

theorem digitsVal_single (a : Nat) (c : Char) :
    digitsVal a [c] = a * 10 + (c.toNat - 48) := rfl

theorem natDigsGo_nil (fuel : Nat) : natDigsGo fuel 0 = [] := by
  cases fuel with
  | zero => rfl
  | succ f => simp [natDigsGo]

theorem natDigsGo_congr : ∀ fuel g n, n ≤ fuel → n ≤ g → natDigsGo fuel n = natDigsGo g n := by
  intro fuel
  induction fuel with
  | zero =>
    intro g n hf _
    have : n = 0 := by omega
    subst this
    rw [natDigsGo_nil, natDigsGo_nil]
  | succ f ih =>
    intro g n hf hg
    by_cases hn : n = 0
    · subst hn
      rw [natDigsGo_nil, natDigsGo_nil]
    · obtain ⟨g2, rfl⟩ : ∃ g2, g = g2 + 1 := ⟨g - 1, by omega⟩
      simp only [natDigsGo, if_neg hn]
      rw [ih g2 (n / 10) (by omega) (by omega)]

theorem natDigs_zero : natDigs 0 = [] := rfl

theorem natDigs_succ (n : Nat) (h : n ≠ 0) :
    natDigs n = natDigs (n / 10) ++ [Char.ofNat (48 + n % 10)] := by
  obtain ⟨m, rfl⟩ : ∃ m, n = m + 1 := ⟨n - 1, by omega⟩
  show natDigsGo (m + 1) (m + 1) = _
  simp only [natDigsGo, if_neg h]
  rw [natDigsGo_congr m ((m + 1) / 10) ((m + 1) / 10) (by omega) (by omega)]
  rfl

theorem natDigs_eq_nil_iff (n : Nat) : natDigs n = [] ↔ n = 0 := by
  constructor
  · intro h
    by_contra hn
    rw [natDigs_succ n hn] at h
    simp at h
  · intro h; subst h; exact natDigs_zero

theorem natDigs_all_digits (n : Nat) : ∀ c ∈ natDigs n, c.isDigit = true := by
  induction n using Nat.strong_induction_on with
  | _ n ih =>
    by_cases hn : n = 0
    · subst hn; rw [natDigs_zero]; simp
    · rw [natDigs_succ n hn]
      intro c hc
      rcases List.mem_append.mp hc with h | h
      · exact ih (n / 10) (Nat.div_lt_self (Nat.pos_of_ne_zero hn) (by decide)) c h
      · simp only [List.mem_singleton] at h
        subst h
        exact (digitChar_spec (n % 10) (Nat.mod_lt n (by decide))).2

theorem natDigs_head_ne_zero (n : Nat) : ∀ d t, natDigs n = d :: t → d ≠ '0' := by
  induction n using Nat.strong_induction_on with
  | _ n ih =>
    intro d t h
    by_cases hn : n = 0
    · subst hn; rw [natDigs_zero] at h; simp at h
    · rw [natDigs_succ n hn] at h
      rcases hd : natDigs (n / 10) with _ | ⟨d0, t0⟩
      · rw [hd] at h
        simp only [List.nil_append, List.cons.injEq] at h
        have h10 : n / 10 = 0 := (natDigs_eq_nil_iff _).mp hd
        have hlt : n % 10 < 10 := Nat.mod_lt n (by decide)
        have hge : 1 ≤ n % 10 := by omega
        rw [← h.1]
        exact digitChar_ne_zero _ hge hlt
      · rw [hd] at h
        simp only [List.cons_append, List.cons.injEq] at h
        exact h.1 ▸ ih (n / 10) (Nat.div_lt_self (Nat.pos_of_ne_zero hn) (by decide)) d0 t0 hd

theorem digitsVal_natDigs (n : Nat) :
    ∀ a, digitsVal a (natDigs n) = a * 10 ^ (natDigs n).length + n := by
  induction n using Nat.strong_induction_on with
  | _ n ih =>
    intro a
    by_cases hn : n = 0
    · subst hn
      rw [natDigs_zero]
      show a = a * 10 ^ ([] : List Char).length + 0
      simp
    · rw [natDigs_succ n hn]
      rw [digitsVal_append]
      rw [ih (n / 10) (Nat.div_lt_self (Nat.pos_of_ne_zero hn) (by decide))]
      rw [digitsVal_single]
      have htn : (Char.ofNat (48 + n % 10)).toNat = 48 + n % 10 :=
        (digitChar_spec (n % 10) (Nat.mod_lt n (by decide))).1
      rw [htn]
      simp only [List.length_append, List.length_singleton, Nat.add_sub_cancel_left]
      have hpow : 10 ^ ((natDigs (n / 10)).length + 1) = 10 ^ (natDigs (n / 10)).length * 10 :=
        pow_succ 10 _
      rw [hpow]
      set L := (natDigs (n / 10)).length
      set P := 10 ^ L
      have key : n / 10 * 10 + n % 10 = n := by omega
      calc (a * P + n / 10) * 10 + n % 10
          = a * (P * 10) + (n / 10 * 10 + n % 10) := by ring
        _ = a * (P * 10) + n := by rw [key]

theorem natToDigits_cons (n : Nat) :
    ∃ d t, natToDigits n = d :: t ∧ d.isDigit = true := by
  by_cases hn : n = 0
  · subst hn; exact ⟨'0', [], rfl, by decide⟩
  · rcases hd : natDigs n with _ | ⟨d, t⟩
    · exact absurd ((natDigs_eq_nil_iff n).mp hd) hn
    · refine ⟨d, t, ?_, ?_⟩
      · rw [natToDigits, if_neg hn, hd]
      · exact natDigs_all_digits n d (hd ▸ List.mem_cons_self d t)

theorem natToDigits_all_digits (n : Nat) : ∀ c ∈ natToDigits n, c.isDigit = true := by
  by_cases hn : n = 0
  · subst hn
    intro c hc
    rw [show natToDigits 0 = ['0'] from rfl] at hc
    simp only [List.mem_singleton] at hc
    subst hc
    decide
  · rw [natToDigits, if_neg hn]; exact natDigs_all_digits n

theorem digitsVal_natToDigits (n : Nat) : digitsVal 0 (natToDigits n) = n := by
  by_cases hn : n = 0
  · subst hn; rfl
  · rw [natToDigits, if_neg hn, digitsVal_natDigs]; ring

theorem takeWhile_append_of (p : Char → Bool) (ds rest : List Char)
    (h1 : ∀ c ∈ ds, p c = true) (h2 : ∀ c, rest.head? = some c → p c = false) :
    (ds ++ rest).takeWhile p = ds ∧ (ds ++ rest).dropWhile p = rest := by
  induction ds with
  | nil =>
    simp only [List.nil_append]
    cases rest with
    | nil => simp
    | cons r rs =>
      have := h2 r rfl
      constructor
      · simp [List.takeWhile, this]
      · simp [List.dropWhile, this]
  | cons d ds ih =>
    have hd : p d = true := h1 d (List.mem_cons_self d ds)
    have ihr := ih (fun c hc => h1 c (List.mem_cons_of_mem d hc))
    constructor
    · simp [List.takeWhile, hd, ihr.1]
    · simp [List.dropWhile, hd, ihr.2]

/-- Head of a list that a number parse must not continue into. -/
def numOk : List Char → Bool
  | [] => true
  | c :: _ => !c.isDigit

theorem pNat_natToDigits (n : Nat) (rest : List Char) (h : numOk rest = true) :
    pNat (natToDigits n ++ rest) = some (n, rest) := by
  have h2 : ∀ c, rest.head? = some c → c.isDigit = false := by
    intro c hc
    cases rest with
    | nil => simp at hc
    | cons r rs =>
      simp only [List.head?] at hc
      injection hc with hc
      subst hc
      simpa [numOk] using h
  have htw := takeWhile_append_of (fun c => c.isDigit) (natToDigits n) rest
    (natToDigits_all_digits n) h2
  rw [pNat]
  simp only [htw.1, htw.2]
  rcases natToDigits_cons n with ⟨d, t, hdt, _⟩
  rw [if_neg (by rw [hdt]; simp)]
  by_cases hn : n = 0
  · subst hn
    rw [show natToDigits 0 = ['0'] from rfl]
    rw [if_neg (by simp)]
    rfl
  · rw [if_neg ?_]
    · rw [digitsVal_natToDigits]
    · rintro ⟨-, hh⟩
      rw [natToDigits, if_neg hn] at hh
      rcases hd0 : natDigs n with _ | ⟨d0, t0⟩
      · exact hn ((natDigs_eq_nil_iff n).mp hd0)
      · rw [hd0] at hh
        simp only [List.head?, Option.some.injEq] at hh
        exact natDigs_head_ne_zero n d0 t0 hd0 hh

theorem stripLit_append (ls rest : List Char) : stripLit ls (ls ++ rest) = some rest := by
  induction ls with
  | nil => rfl
  | cons l ls ih => simp [stripLit, ih]

theorem skipWs_not_ws (c : Char) (cs : List Char) (h : isJsonWs c = false) :
    skipWs (c :: cs) = c :: cs := by
  simp [skipWs, h]

theorem hexVal_zero : hexVal '0' = 0 := by decide

theorem pStrBody_escList (body : List Char) :
    ∀ rest, pStrBody (escList body ++ '"' :: rest) = some (body, rest) := by
  induction body with
  | nil =>
    intro rest
    rw [show escList [] = [] from rfl, List.nil_append, pStrBody.eq_def]
    simp
  | cons c cs ih =>
    intro rest
    rw [show escList (c :: cs) = escapeChar c ++ escList cs from rfl, List.append_assoc]
    by_cases h1 : c = '"'
    · subst h1
      simp only [escapeChar, if_pos rfl, List.cons_append, List.nil_append]
      rw [pStrBody.eq_def]
      simp [ih]
    · by_cases h2 : c = '\\'
      · subst h2
        simp only [show escapeChar '\\' = ['\\', '\\'] from by decide,
          List.cons_append, List.nil_append]
        rw [pStrBody.eq_def]
        simp [ih]
      · by_cases h3 : c = '\x08'
        · subst h3
          simp only [show escapeChar '\x08' = ['\\', 'b'] from by decide,
            List.cons_append, List.nil_append]
          rw [pStrBody.eq_def]
          simp [ih]
        · by_cases h4 : c = '\x09'
          · subst h4
            simp only [show escapeChar '\x09' = ['\\', 't'] from by decide,
              List.cons_append, List.nil_append]
            rw [pStrBody.eq_def]
            simp [ih]
          · by_cases h5 : c = '\x0a'
            · subst h5
              simp only [show escapeChar '\x0a' = ['\\', 'n'] from by decide,
                List.cons_append, List.nil_append]
              rw [pStrBody.eq_def]
              simp [ih]
            · by_cases h6 : c = '\x0c'
              · subst h6
                simp only [show escapeChar '\x0c' = ['\\', 'f'] from by decide,
                  List.cons_append, List.nil_append]
                rw [pStrBody.eq_def]
                simp [ih]
              · by_cases h7 : c = '\x0d'
                · subst h7
                  simp only [show escapeChar '\x0d' = ['\\', 'r'] from by decide,
                    List.cons_append, List.nil_append]
                  rw [pStrBody.eq_def]
                  simp [ih]
                · by_cases h8 : c.toNat < 32
                  · have hesc : escapeChar c =
                        ['\\', 'u', '0', '0', hexDigit (c.toNat / 16), hexDigit (c.toNat % 16)] := by
                      simp [escapeChar, h1, h2, h3, h4, h5, h6, h7, h8]
                    rw [hesc]
                    have hd16 : c.toNat / 16 < 16 := by omega
                    have hm16 : c.toNat % 16 < 16 := by omega
                    have e3 := hexVal_hexDigit _ hd16
                    have e4 := hexVal_hexDigit _ hm16
                    have hsum2 : c.toNat / 16 * 16 + c.toNat % 16 = c.toNat := by omega
                    have hs : ¬(55296 ≤ c.toNat ∧ c.toNat ≤ 57343) := by omega
                    simp only [List.cons_append, List.nil_append]
                    have hx0 : isHex '0' = true := by decide
                    rw [pStrBody.eq_def]
                    simp [e3.1, e3.2, e4.1, e4.2, hexVal_zero, hx0, hsum2, hs, Char.ofNat_toNat, ih]
                  · have hesc : escapeChar c = [c] := by
                      simp [escapeChar, h1, h2, h3, h4, h5, h6, h7, h8]
                    rw [hesc]
                    simp only [List.cons_append, List.nil_append]
                    rw [pStrBody.eq_def]
                    simp [h1, h2, h8, ih]

theorem digit_not_special (c : Char) (h : c.isDigit = true) :
    isJsonWs c = false ∧ c ≠ ']' ∧ c ≠ '\x7d' ∧ c ≠ 'n' ∧ c ≠ 't' ∧ c ≠ 'f' ∧
      c ≠ '"' ∧ c ≠ '[' ∧ c ≠ '\x7b' ∧ c ≠ '-' ∧ c ≠ ',' ∧ c ≠ ':' := by
  refine ⟨?_, ?_, ?_, ?_, ?_, ?_, ?_, ?_, ?_, ?_, ?_, ?_⟩
  · cases hw : isJsonWs c with
    | false => rfl
    | true =>
      exfalso
      simp only [isJsonWs, Bool.or_eq_true, decide_eq_true_eq] at hw
      rcases hw with ((h1 | h1) | h1) | h1 <;> subst h1 <;> exact absurd h (by decide)
  all_goals intro he; subst he; exact absurd h (by decide)

theorem printVal_cons (v : JValue) :
    ∃ c t, printVal v = c :: t ∧ isJsonWs c = false ∧ c ≠ ']' ∧ c ≠ '\x7d' := by
  cases v with
  | jnull => exact ⟨'n', ['u', 'l', 'l'], by simp [printVal], by decide, by decide, by decide⟩
  | jbool b =>
    cases b with
    | true => exact ⟨'t', ['r', 'u', 'e'], by simp [printVal], by decide, by decide, by decide⟩
    | false =>
      exact ⟨'f', ['a', 'l', 's', 'e'], by simp [printVal], by decide, by decide, by decide⟩
  | jnum n =>
    by_cases hneg : n < 0
    · exact ⟨'-', natToDigits n.natAbs, by simp [printVal, intDigits, hneg], by decide,
        by decide, by decide⟩
    · rcases natToDigits_cons n.natAbs with ⟨d, t, hdt, hdig⟩
      have hp := digit_not_special d hdig
      exact ⟨d, t, by simp [printVal, intDigits, hneg, hdt], hp.1, hp.2.1, hp.2.2.1⟩
  | jstr s =>
    exact ⟨'"', escList s.toList ++ ['"'], by simp [printVal, printStr], by decide,
      by decide, by decide⟩
  | jarr a =>
    exact ⟨'[', printArr a ++ [']'], by simp [printVal], by decide, by decide, by decide⟩
  | jobj o =>
    exact ⟨'\x7b', printObj o ++ ['\x7d'], by simp [printVal], by decide, by decide, by decide⟩

/- Fuel consumed by the parser on printed output: one unit per value, plus
one per list element. -/
mutual
def sizeV : JValue → Nat
  | .jnull => 1
  | .jbool _ => 1
  | .jnum _ => 1
  | .jstr _ => 1
  | .jarr a => 1 + sizeA a
  | .jobj o => 1 + sizeO o
termination_by structural v => v
def sizeA : JArr → Nat
  | .nil => 0
  | .cons v tl => 1 + sizeV v + sizeA tl
termination_by structural a => a
def sizeO : JObj → Nat
  | .nil => 0
  | .cons _ v tl => 1 + sizeV v + sizeO tl
termination_by structural o => o
end

mutual
theorem sizeV_le_len (v : JValue) : sizeV v ≤ (printVal v).length := by
  cases v with
  | jnull => simp [sizeV, printVal]
  | jbool b => cases b <;> simp [sizeV, printVal]
  | jnum n =>
    rcases natToDigits_cons n.natAbs with ⟨d, t, hdt, _⟩
    by_cases hneg : n < 0 <;> simp [sizeV, printVal, intDigits, hneg, hdt]
  | jstr s => simp [sizeV, printVal, printStr]
  | jarr a =>
    have := sizeA_le_len a
    simp only [sizeV, printVal, List.length_cons, List.length_append,
      List.length_singleton]
    omega
  | jobj o =>
    have := sizeO_le_len o
    simp only [sizeV, printVal, List.length_cons, List.length_append,
      List.length_singleton]
    omega
theorem sizeA_le_len (a : JArr) : sizeA a ≤ (printArr a).length + 1 := by
  cases a with
  | nil => simp [sizeA]
  | cons v tl =>
    have hv := sizeV_le_len v
    cases tl with
    | nil => simp only [sizeA, printArr, List.length_cons]; omega
    | cons w tw =>
      have ht := sizeA_le_len (JArr.cons w tw)
      simp only [sizeA, printArr, List.length_append, List.length_cons] at *
      omega
theorem sizeO_le_len (o : JObj) : sizeO o ≤ (printObj o).length + 1 := by
  cases o with
  | nil => simp [sizeO]
  | cons k v tl =>
    have hv := sizeV_le_len v
    cases tl with
    | nil => simp only [sizeO, printObj, List.length_append, List.length_cons]; omega
    | cons k2 w tw =>
      have ht := sizeO_le_len (JObj.cons k2 w tw)
      simp only [sizeO, printObj, List.length_append, List.length_cons] at *
      omega
end

theorem mk_toList (s : String) : String.mk s.toList = s := rfl

theorem pVal_digit (f : Nat) (d : Char) (cs : List Char) (hd : d.isDigit = true) :
    pVal (f + 1) (d :: cs) = (pNat (d :: cs)).map (fun p => (JValue.jnum (p.1 : Int), p.2)) := by
  obtain ⟨-, -, -, hn, ht, hf, hq, hlb, hlcb, hminus, -, -⟩ := digit_not_special d hd
  rw [pVal.eq_def]
  simp [hn, ht, hf, hq, hlb, hlcb, hminus, hd]

theorem pVal_arr (f : Nat) (c0 : Char) (t0 : List Char) (hw : isJsonWs c0 = false)
    (hne : c0 ≠ ']') :
    pVal (f + 1) ('[' :: c0 :: t0) =
      (pElems f (c0 :: t0)).map (fun p => (JValue.jarr p.1, p.2)) := by
  rw [pVal.eq_def]
  simp [skipWs, hw]
  split
  · rename_i r heq
    injection heq with h1 h2
    exact absurd h1 hne
  · rfl

theorem pVal_obj (f : Nat) (c0 : Char) (t0 : List Char) (hw : isJsonWs c0 = false)
    (hne : c0 ≠ '\x7d') :
    pVal (f + 1) ('\x7b' :: c0 :: t0) =
      (pMembers f (c0 :: t0)).map (fun p => (JValue.jobj p.1, p.2)) := by
  rw [pVal.eq_def]
  simp [skipWs, hw]
  split
  · rename_i r heq
    injection heq with h1 h2
    exact absurd h1 hne
  · rfl


theorem pVal_null (f : Nat) (rest : List Char) :
    pVal (f + 1) ('n' :: 'u' :: 'l' :: 'l' :: rest) = some (.jnull, rest) := by
  rw [pVal.eq_def]
  simp [stripLit]

theorem pVal_true (f : Nat) (rest : List Char) :
    pVal (f + 1) ('t' :: 'r' :: 'u' :: 'e' :: rest) = some (.jbool true, rest) := by
  rw [pVal.eq_def]
  simp [stripLit]

theorem pVal_false (f : Nat) (rest : List Char) :
    pVal (f + 1) ('f' :: 'a' :: 'l' :: 's' :: 'e' :: rest) = some (.jbool false, rest) := by
  rw [pVal.eq_def]
  simp [stripLit]

theorem pVal_str (f : Nat) (cs : List Char) :
    pVal (f + 1) ('"' :: cs) =
      (pStrBody cs).map (fun p => (JValue.jstr (String.mk p.1), p.2)) := by
  rw [pVal.eq_def]
  simp

theorem pVal_minus (f : Nat) (cs : List Char) :
    pVal (f + 1) ('-' :: cs) =
      (pNat cs).map (fun p => (JValue.jnum (-(p.1 : Int)), p.2)) := by
  rw [pVal.eq_def]
  simp

theorem pVal_arrNil (f : Nat) (rest : List Char) :
    pVal (f + 1) ('[' :: ']' :: rest) = some (.jarr .nil, rest) := by
  rw [pVal.eq_def]
  simp [skipWs, show isJsonWs ']' = false from by decide]

theorem pVal_objNil (f : Nat) (rest : List Char) :
    pVal (f + 1) ('\x7b' :: '\x7d' :: rest) = some (.jobj .nil, rest) := by
  rw [pVal.eq_def]
  simp [skipWs, show isJsonWs '\x7d' = false from by decide]

theorem pVal_arr2 (f : Nat) (cs : List Char) (c0 : Char) (t0 : List Char)
    (hcs : cs = c0 :: t0) (hw : isJsonWs c0 = false) (hne : c0 ≠ ']') :
    pVal (f + 1) ('[' :: cs) = (pElems f cs).map (fun p => (JValue.jarr p.1, p.2)) := by
  subst hcs
  exact pVal_arr f c0 t0 hw hne

theorem pVal_obj2 (f : Nat) (cs : List Char) (c0 : Char) (t0 : List Char)
    (hcs : cs = c0 :: t0) (hw : isJsonWs c0 = false) (hne : c0 ≠ '\x7d') :
    pVal (f + 1) ('\x7b' :: cs) = (pMembers f cs).map (fun p => (JValue.jobj p.1, p.2)) := by
  subst hcs
  exact pVal_obj f c0 t0 hw hne

theorem pElems_succ (f : Nat) (cs : List Char) :
    pElems (f + 1) cs =
      match pVal f cs with
      | none => none
      | some (v, r) =>
        match skipWs r with
        | ',' :: r2 => (pElems f (skipWs r2)).map (fun p => (JArr.cons v p.1, p.2))
        | ']' :: r2 => some (JArr.cons v JArr.nil, r2)
        | _ => none := by
  rw [pElems.eq_def]

theorem pMembers_quote (f : Nat) (cs1 : List Char) :
    pMembers (f + 1) ('"' :: cs1) =
      match pStrBody cs1 with
      | none => none
      | some (k, cs2) =>
        match skipWs cs2 with
        | ':' :: cs3 =>
          match pVal f (skipWs cs3) with
          | none => none
          | some (v, cs4) =>
            match skipWs cs4 with
            | ',' :: cs5 =>
              (pMembers f (skipWs cs5)).map (fun p => (JObj.cons (String.mk k) v p.1, p.2))
            | '\x7d' :: cs5 => some (JObj.cons (String.mk k) v JObj.nil, cs5)
            | _ => none
        | _ => none := by
  rw [pMembers.eq_def]
  rfl

theorem pElems_step_close (f : Nat) (cs : List Char) (v : JValue) (r2 : List Char)
    (hp : pVal f cs = some (v, ']' :: r2)) :
    pElems (f + 1) cs = some (JArr.cons v JArr.nil, r2) := by
  rw [pElems_succ, hp]
  rfl

theorem pElems_step_comma (f : Nat) (cs X : List Char) (v : JValue)
    (hp : pVal f cs = some (v, ',' :: X)) :
    pElems (f + 1) cs = (pElems f (skipWs X)).map (fun p => (JArr.cons v p.1, p.2)) := by
  rw [pElems_succ, hp]
  rfl

theorem pMembers_step_close (f : Nat) (cs1 cs3 r : List Char) (kl : List Char) (v : JValue)
    (hs : pStrBody cs1 = some (kl, ':' :: cs3))
    (hv : pVal f (skipWs cs3) = some (v, '\x7d' :: r)) :
    pMembers (f + 1) ('"' :: cs1) = some (JObj.cons (String.mk kl) v JObj.nil, r) := by
  rw [pMembers_quote, hs]
  show (match pVal f (skipWs cs3) with
    | none => none
    | some (v2, cs4) =>
      match skipWs cs4 with
      | ',' :: cs5 =>
        (pMembers f (skipWs cs5)).map (fun p => (JObj.cons (String.mk kl) v2 p.1, p.2))
      | '\x7d' :: cs5 => some (JObj.cons (String.mk kl) v2 JObj.nil, cs5)
      | _ => none) = some (JObj.cons (String.mk kl) v JObj.nil, r)
  rw [hv]
  rfl

theorem pMembers_step_comma (f : Nat) (cs1 cs3 X : List Char) (kl : List Char) (v : JValue)
    (hs : pStrBody cs1 = some (kl, ':' :: cs3))
    (hv : pVal f (skipWs cs3) = some (v, ',' :: X)) :
    pMembers (f + 1) ('"' :: cs1) =
      (pMembers f (skipWs X)).map (fun p => (JObj.cons (String.mk kl) v p.1, p.2)) := by
  rw [pMembers_quote, hs]
  show (match pVal f (skipWs cs3) with
    | none => none
    | some (v2, cs4) =>
      match skipWs cs4 with
      | ',' :: cs5 =>
        (pMembers f (skipWs cs5)).map (fun p => (JObj.cons (String.mk kl) v2 p.1, p.2))
      | '\x7d' :: cs5 => some (JObj.cons (String.mk kl) v2 JObj.nil, cs5)
      | _ => none) =
      (pMembers f (skipWs X)).map (fun p => (JObj.cons (String.mk kl) v p.1, p.2))
  rw [hv]
  rfl

mutual
theorem rtV (v : JValue) : ∀ (fuel : Nat) (rest : List Char), sizeV v ≤ fuel →
    numOk rest = true → pVal fuel (printVal v ++ rest) = some (v, rest) := by
  cases v with
  | jnull =>
    intro fuel rest hf _
    obtain ⟨f, rfl⟩ : ∃ f, fuel = f + 1 := ⟨fuel - 1, by simp [sizeV] at hf; omega⟩
    rw [show printVal .jnull = ['n', 'u', 'l', 'l'] from by simp [printVal]]
    simp only [List.cons_append, List.nil_append]
    exact pVal_null f rest
  | jbool b =>
    intro fuel rest hf _
    obtain ⟨f, rfl⟩ : ∃ f, fuel = f + 1 := ⟨fuel - 1, by simp [sizeV] at hf; omega⟩
    cases b with
    | true =>
      rw [show printVal (.jbool true) = ['t', 'r', 'u', 'e'] from by simp [printVal]]
      simp only [List.cons_append, List.nil_append]
      exact pVal_true f rest
    | false =>
      rw [show printVal (.jbool false) = ['f', 'a', 'l', 's', 'e'] from by simp [printVal]]
      simp only [List.cons_append, List.nil_append]
      exact pVal_false f rest
  | jnum n =>
    intro fuel rest hf hr
    obtain ⟨f, rfl⟩ : ∃ f, fuel = f + 1 := ⟨fuel - 1, by simp [sizeV] at hf; omega⟩
    rw [show printVal (.jnum n) = intDigits n from by simp [printVal]]
    by_cases hneg : n < 0
    · rw [intDigits, if_pos hneg]
      simp only [List.cons_append]
      rw [pVal_minus, pNat_natToDigits n.natAbs rest hr]
      have hval : -(n.natAbs : Int) = n := by omega
      simp only [Option.map_some']
      rw [hval]
    · rw [intDigits, if_neg hneg]
      rcases natToDigits_cons n.natAbs with ⟨d, t, hdt, hdig⟩
      rw [hdt]
      simp only [List.cons_append]
      rw [pVal_digit f d (t ++ rest) hdig]
      rw [← List.cons_append, ← hdt, pNat_natToDigits n.natAbs rest hr]
      have hval : (n.natAbs : Int) = n := by omega
      simp only [Option.map_some']
      rw [hval]
  | jstr s =>
    intro fuel rest hf _
    obtain ⟨f, rfl⟩ : ∃ f, fuel = f + 1 := ⟨fuel - 1, by simp [sizeV] at hf; omega⟩
    rw [show printVal (.jstr s) = printStr s from by simp [printVal], printStr]
    simp only [List.cons_append, List.append_assoc, List.singleton_append]
    rw [pVal_str, pStrBody_escList]
    simp [mk_toList]
  | jarr a =>
    intro fuel rest hf hr
    obtain ⟨f, rfl⟩ : ∃ f, fuel = f + 1 := ⟨fuel - 1, by simp [sizeV] at hf; omega⟩
    rw [show printVal (.jarr a) = '[' :: printArr a ++ [']'] from by simp [printVal]]
    simp only [List.cons_append, List.append_assoc, List.singleton_append, List.nil_append]
    cases a with
    | nil =>
      rw [show printArr JArr.nil = [] from by simp [printArr]]
      simp only [List.nil_append]
      exact pVal_arrNil f rest
    | cons v tl =>
      rcases printVal_cons v with ⟨c0, t0, hv0, hw0, hrb0, _⟩
      have hX : ∃ X, printArr (JArr.cons v tl) = printVal v ++ X := by
        cases tl with
        | nil => exact ⟨[], by simp [printArr]⟩
        | cons w tw => exact ⟨',' :: printArr (JArr.cons w tw), by simp [printArr]⟩
      rcases hX with ⟨X, hX⟩
      rw [pVal_arr2 f _ c0 (t0 ++ (X ++ ']' :: rest)) (by rw [hX, hv0]; simp) hw0 hrb0]
      rw [rtA (JArr.cons v tl) f rest (by intro h; exact JArr.noConfusion h)
        (by simp [sizeV, sizeA] at hf ⊢; omega)]
      rfl
  | jobj o =>
    intro fuel rest hf hr
    obtain ⟨f, rfl⟩ : ∃ f, fuel = f + 1 := ⟨fuel - 1, by simp [sizeV] at hf; omega⟩
    rw [show printVal (.jobj o) = '\x7b' :: printObj o ++ ['\x7d'] from by simp [printVal]]
    simp only [List.cons_append, List.append_assoc, List.singleton_append, List.nil_append]
    cases o with
    | nil =>
      rw [show printObj JObj.nil = [] from by simp [printObj]]
      simp only [List.nil_append]
      exact pVal_objNil f rest
    | cons k v tl =>
      have hX : ∃ X, printObj (JObj.cons k v tl) = printStr k ++ X := by
        cases tl with
        | nil => exact ⟨':' :: printVal v, by simp [printObj]⟩
        | cons k2 w tw =>
          exact ⟨':' :: printVal v ++ ',' :: printObj (JObj.cons k2 w tw), by simp [printObj]⟩
      rcases hX with ⟨X, hX⟩
      rw [pVal_obj2 f _ '"' (escList k.toList ++ ('"' :: (X ++ '\x7d' :: rest)))
        (by rw [hX, printStr]; simp) (by decide) (by decide)]
      rw [rtO (JObj.cons k v tl) f rest (by intro h; exact JObj.noConfusion h)
        (by simp [sizeV, sizeO] at hf ⊢; omega)]
      rfl
theorem rtA (a : JArr) : ∀ (fuel : Nat) (rest : List Char), a ≠ .nil → sizeA a ≤ fuel →
    pElems fuel (printArr a ++ ']' :: rest) = some (a, rest) := by
  cases a with
  | nil => intro fuel rest hne _; exact absurd rfl hne
  | cons v tl =>
    intro fuel rest _ hf
    obtain ⟨f, rfl⟩ : ∃ f, fuel = f + 1 := ⟨fuel - 1, by simp [sizeA] at hf; omega⟩
    have hfv : sizeV v ≤ f := by simp [sizeA] at hf; omega
    cases tl with
    | nil =>
      rw [show printArr (JArr.cons v JArr.nil) = printVal v from by simp [printArr]]
      exact pElems_step_close f _ v rest (rtV v f (']' :: rest) hfv (by rfl))
    | cons w tw =>
      rw [show printArr (JArr.cons v (JArr.cons w tw)) =
        printVal v ++ ',' :: printArr (JArr.cons w tw) from by simp [printArr]]
      simp only [List.append_assoc, List.cons_append]
      rw [pElems_step_comma f _ (printArr (JArr.cons w tw) ++ ']' :: rest) v
        (rtV v f (',' :: (printArr (JArr.cons w tw) ++ ']' :: rest)) hfv (by rfl))]
      rcases printVal_cons w with ⟨c0, t0, hw0c, hw0, _, _⟩
      have hX : ∃ X, printArr (JArr.cons w tw) = printVal w ++ X := by
        cases tw with
        | nil => exact ⟨[], by simp [printArr]⟩
        | cons u tu => exact ⟨',' :: printArr (JArr.cons u tu), by simp [printArr]⟩
      rcases hX with ⟨X, hX⟩
      rw [show skipWs (printArr (JArr.cons w tw) ++ ']' :: rest) =
          printArr (JArr.cons w tw) ++ ']' :: rest from by
        rw [hX, hw0c]
        simp only [List.cons_append, List.append_assoc]
        exact skipWs_not_ws c0 _ hw0]
      rw [rtA (JArr.cons w tw) f rest (by intro h; exact JArr.noConfusion h)
        (by simp [sizeA] at hf ⊢; omega)]
      rfl
theorem rtO (o : JObj) : ∀ (fuel : Nat) (rest : List Char), o ≠ .nil → sizeO o ≤ fuel →
    pMembers fuel (printObj o ++ '\x7d' :: rest) = some (o, rest) := by
  cases o with
  | nil => intro fuel rest hne _; exact absurd rfl hne
  | cons k v tl =>
    intro fuel rest _ hf
    obtain ⟨f, rfl⟩ : ∃ f, fuel = f + 1 := ⟨fuel - 1, by simp [sizeO] at hf; omega⟩
    have hfv : sizeV v ≤ f := by simp [sizeO] at hf; omega
    rcases printVal_cons v with ⟨c0, t0, hv0, hw0, _, _⟩
    cases tl with
    | nil =>
      rw [show printObj (JObj.cons k v JObj.nil) = printStr k ++ ':' :: printVal v from by
        simp [printObj]]
      rw [printStr]
      simp only [List.cons_append, List.append_assoc, List.singleton_append, List.nil_append]
      have hv : pVal f (skipWs (printVal v ++ '\x7d' :: rest)) =
          some (v, '\x7d' :: rest) := by
        rw [show skipWs (printVal v ++ '\x7d' :: rest) = printVal v ++ '\x7d' :: rest from by
          rw [hv0]
          simp only [List.cons_append]
          exact skipWs_not_ws c0 _ hw0]
        exact rtV v f ('\x7d' :: rest) hfv (by rfl)
      rw [pMembers_step_close f _ _ rest k.toList v
        (pStrBody_escList k.toList (':' :: (printVal v ++ '\x7d' :: rest))) hv]
      rw [mk_toList]
    | cons k2 w tw =>
      rw [show printObj (JObj.cons k v (JObj.cons k2 w tw)) =
        printStr k ++ ':' :: printVal v ++ ',' :: printObj (JObj.cons k2 w tw) from by
        simp [printObj]]
      rw [printStr]
      simp only [List.cons_append, List.append_assoc, List.singleton_append, List.nil_append]
      have hv : pVal f (skipWs (printVal v ++ ',' ::
          (printObj (JObj.cons k2 w tw) ++ '\x7d' :: rest))) =
          some (v, ',' :: (printObj (JObj.cons k2 w tw) ++ '\x7d' :: rest)) := by
        rw [show skipWs (printVal v ++ ',' :: (printObj (JObj.cons k2 w tw) ++ '\x7d' :: rest)) =
            printVal v ++ ',' :: (printObj (JObj.cons k2 w tw) ++ '\x7d' :: rest) from by
          rw [hv0]
          simp only [List.cons_append]
          exact skipWs_not_ws c0 _ hw0]
        exact rtV v f (',' :: (printObj (JObj.cons k2 w tw) ++ '\x7d' :: rest)) hfv (by rfl)
      rw [pMembers_step_comma f _ _ (printObj (JObj.cons k2 w tw) ++ '\x7d' :: rest) k.toList v
        (pStrBody_escList k.toList
          (':' :: (printVal v ++ ',' :: (printObj (JObj.cons k2 w tw) ++ '\x7d' :: rest)))) hv]
      have hX : ∃ X, printObj (JObj.cons k2 w tw) = printStr k2 ++ X := by
        cases tw with
        | nil => exact ⟨':' :: printVal w, by simp [printObj]⟩
        | cons k3 u tu =>
          exact ⟨':' :: printVal w ++ ',' :: printObj (JObj.cons k3 u tu), by simp [printObj]⟩
      rcases hX with ⟨X, hX⟩
      rw [show skipWs (printObj (JObj.cons k2 w tw) ++ '\x7d' :: rest) =
          printObj (JObj.cons k2 w tw) ++ '\x7d' :: rest from by
        rw [hX, printStr]
        simp only [List.cons_append, List.append_assoc]
        exact skipWs_not_ws '"' _ (by decide)]
      rw [rtO (JObj.cons k2 w tw) f rest (by intro h; exact JObj.noConfusion h)
        (by simp [sizeO] at hf ⊢; omega)]
      rw [mk_toList]
      rfl
end

theorem skipWs_printVal (v : JValue) : skipWs (printVal v) = printVal v := by
  rcases printVal_cons v with ⟨c, t, hv, hw, -, -⟩
  rw [hv]
  exact skipWs_not_ws c t hw

theorem pVal_printVal (v : JValue) (fuel : Nat) (h : sizeV v ≤ fuel) :
    pVal fuel (printVal v) = some (v, []) := by
  have h2 := rtV v fuel [] h (by rfl)
  rw [List.append_nil] at h2
  exact h2

/-- Round trip of the modelled JSON codec: parsing the printed form of any
JSON value recovers it exactly. -/
theorem jsonParse_printJson (v : JValue) : jsonParse (printJson v) = some v := by
  rw [jsonParse]
  rw [show (printJson v).toList = printVal v from rfl]
  rw [show (printJson v).length = (printVal v).length from rfl]
  rw [skipWs_printVal]
  rw [pVal_printVal v _ (by have := sizeV_le_len v; omega)]
  rfl

/-! ### Properties of the lookup and of the formatted string -/

/-- Substring containment (JavaScript `String.prototype.includes`). -/
def strContains (s pat : String) : Prop :=
  pat.toList <:+: s.toList

instance (s pat : String) : Decidable (strContains s pat) := by
  unfold strContains
  infer_instance

theorem toList_append (a b : String) : (a ++ b).toList = a.toList ++ b.toList := by
  simp [String.toList]

theorem strContains_append_left (s t pat : String) (h : strContains s pat) :
    strContains (s ++ t) pat := by
  unfold strContains at *
  rw [toList_append]
  rcases h with ⟨p, q, hpq⟩
  exact ⟨p, q ++ t.toList, by rw [← hpq]; simp⟩

theorem strContains_append_right (s t pat : String) (h : strContains t pat) :
    strContains (s ++ t) pat := by
  unfold strContains at *
  rw [toList_append]
  rcases h with ⟨p, q, hpq⟩
  exact ⟨s.toList ++ p, q, by rw [← hpq]; simp⟩

theorem stripLit_suffix (ls : List Char) :
    ∀ cs r, stripLit ls cs = some r → r <:+ cs := by
  induction ls with
  | nil =>
    intro cs r h
    simp only [stripLit, Option.some.injEq] at h
    subst h
    exact List.suffix_refl cs
  | cons l ls ih =>
    intro cs r h
    cases cs with
    | nil => simp [stripLit] at h
    | cons c cs2 =>
      simp only [stripLit] at h
      by_cases hc : c = l
      · rw [if_pos hc] at h
        exact (ih cs2 r h).trans (List.suffix_cons c cs2)
      · rw [if_neg hc] at h
        exact absurd h (by simp)

theorem tryKey_mem_eq (key cs : List Char) (v : List Char) (h : tryKey key cs = some v) :
    '=' ∈ cs := by
  unfold tryKey at h
  split at h
  · rename_i r heq
    exact (stripLit_suffix key cs _ heq).subset (List.mem_cons_self '=' r)
  · exact absurd h (by simp)

theorem tryWs_mem_eq (key : List Char) :
    ∀ j cs v, tryWs key j cs = some v → '=' ∈ cs := by
  intro j
  induction j with
  | zero => intro cs v h; exact tryKey_mem_eq key cs v h
  | succ j ih =>
    intro cs v h
    simp only [tryWs] at h
    split at h
    · rename_i r heq
      have := tryKey_mem_eq key (cs.drop (j + 1)) r heq
      exact List.drop_subset (j + 1) cs this
    · exact ih cs v h

theorem scanSemis_mem_eq (key : List Char) :
    ∀ cs v, scanSemis key cs = some v → '=' ∈ cs := by
  intro cs
  induction cs with
  | nil => intro v h; simp [scanSemis] at h
  | cons c cs2 ih =>
    intro v h
    simp only [scanSemis] at h
    by_cases hc : c = ';'
    · rw [if_pos hc] at h
      split at h
      · rename_i r heq
        exact List.mem_cons_of_mem c (tryWs_mem_eq key _ cs2 r heq)
      · exact List.mem_cons_of_mem c (ih v h)
    · rw [if_neg hc] at h
      exact List.mem_cons_of_mem c (ih v h)

/-- If the cookie string contains no `=` at all, the lookup regex cannot
match (its pattern requires a literal `=`). -/
theorem regexExec_none_of_no_eq (doc key : String) (h : '=' ∉ doc.toList) :
    regexExec doc key = none := by
  unfold regexExec
  rcases h1 : tryKey key.toList doc.toList with _ | v
  · rcases h2 : scanSemis key.toList doc.toList with _ | w
    · simp
    · exact absurd (scanSemis_mem_eq key.toList doc.toList w h2) h
  · exact absurd (tryKey_mem_eq key.toList doc.toList v h1) h

/-! ### The claims -/

theorem attrTail_contains_of_none (a : CookieAttributes)
    (h1 : a.sameSite = some SameSite.NoneSite) :
    strContains (attrTail a) "SameSite=None" ∧ strContains (attrTail a) "Secure" := by
  unfold attrTail
  rw [h1]
  constructor
  · apply strContains_append_left
    apply strContains_append_right
    decide
  · rw [if_pos (Or.inl rfl)]
    apply strContains_append_right
    decide

/-- C1: with `sameSite = "None"` and `secure` not true, `set` throws the
validation error and hands nothing to the storage collaborator; with
`sameSite = "None"` and `secure = true`, `set` succeeds, the returned
string is the one written, and it contains both `SameSite=None` and
`Secure`. -/
theorem C1_sameSite_none_requires_secure (dateParse : String → Option Int) (now : Int)
    (defaultTtl : Option Int) (key : String) (value : JSValue)
    (attributes : CookieAttributes) (h1 : attributes.sameSite = some SameSite.NoneSite) :
    (attributes.secure = false →
      (Cookie.set dateParse now defaultTtl key value attributes).result =
        .thrown sameSiteErr ∧
      (Cookie.set dateParse now defaultTtl key value attributes).writes = []) ∧
    (attributes.secure = true →
      ∃ c, (Cookie.set dateParse now defaultTtl key value attributes).result = .ok c ∧
        (Cookie.set dateParse now defaultTtl key value attributes).writes = [c] ∧
        strContains c "SameSite=None" ∧ strContains c "Secure") := by
  constructor
  · intro h2
    unfold Cookie.set
    rw [if_pos ⟨h1, h2⟩]
    exact ⟨rfl, rfl⟩
  · intro h2
    unfold Cookie.set
    rw [if_neg (by simp [h2])]
    refine ⟨_, rfl, rfl, ?_, ?_⟩
    · exact strContains_append_right _ _ _ (attrTail_contains_of_none attributes h1).1
    · exact strContains_append_right _ _ _ (attrTail_contains_of_none attributes h1).2

theorem C1_witness :
    (({ sameSite := some SameSite.NoneSite } : CookieAttributes).sameSite =
      some SameSite.NoneSite) ∧
    ((Cookie.set (fun _ => none) 0 none "k" (.jval (.jstr "v"))
        { sameSite := some SameSite.NoneSite }).result = .thrown sameSiteErr ∧
      (Cookie.set (fun _ => none) 0 none "k" (.jval (.jstr "v"))
        { sameSite := some SameSite.NoneSite }).writes = []) ∧
    (∃ c, (Cookie.set (fun _ => none) 0 none "k" (.jval (.jstr "v"))
        { sameSite := some SameSite.NoneSite, secure := true }).result = .ok c ∧
      (Cookie.set (fun _ => none) 0 none "k" (.jval (.jstr "v"))
        { sameSite := some SameSite.NoneSite, secure := true }).writes = [c] ∧
      strContains c "SameSite=None" ∧ strContains c "Secure") :=
  ⟨rfl,
    (C1_sameSite_none_requires_secure (fun _ => none) 0 none "k" (.jval (.jstr "v"))
      { sameSite := some SameSite.NoneSite } rfl).1 rfl,
    (C1_sameSite_none_requires_secure (fun _ => none) 0 none "k" (.jval (.jstr "v"))
      { sameSite := some SameSite.NoneSite, secure := true } rfl).2 rfl⟩

/-- C2 counterexample: with a process-wide default TTL of `0` (non-null)
in effect, no per-call `ttl`, and an explicit `expires`, the formatted
expiration is the supplied instant, not `now + ttl` seconds as the claim
states. -/
theorem C2_counterexample :
    (Cookie.set (fun _ => none) 1000000000000 (some 0) "k" (.jval (.jstr "v"))
        { expires := some (.date 1000) }).result =
      .ok ("k=v; expires=" ++ toUTCString 1000) ∧
    ("k=v; expires=" ++ toUTCString 1000) ≠
      ("k=v; expires=" ++ toUTCString (1000000000000 + 0 * 1000)) := by
  constructor
  · decide
  · decide

theorem attrTail_set_expires (a : CookieAttributes) (e : Option ExpiresAttr) :
    attrTail { a with expires := e } = attrTail a := rfl

/-- C2 amended: whenever the resolved TTL (per-call, or the process-wide
default when the per-call one is null/absent) is non-null and non-zero,
the formatted expiration segment is `now + ttl` seconds, and the supplied
`expires` has no influence on the call at all. -/
theorem C2_ttl_overrides_expires (dateParse : String → Option Int) (now : Int)
    (defaultTtl : Option Int) (key : String) (value : JSValue)
    (attributes : CookieAttributes) (t : Int)
    (hres : resolveTtl attributes.ttl defaultTtl = some t) (ht : t ≠ 0)
    (hok : ¬(attributes.sameSite = some SameSite.NoneSite ∧ attributes.secure = false)) :
    (Cookie.set dateParse now defaultTtl key value attributes).result =
      .ok (baseSeg key value ++ expSeg (some (now + t * 1000)) ++ attrTail attributes) ∧
    ∀ e1 e2 : Option ExpiresAttr,
      Cookie.set dateParse now defaultTtl key value { attributes with expires := e1 } =
        Cookie.set dateParse now defaultTtl key value { attributes with expires := e2 } := by
  have hre : ∀ e : Option ExpiresAttr,
      resolveExpires dateParse now (resolveTtl attributes.ttl defaultTtl) e =
        some (now + t * 1000) := by
    intro e
    rw [hres]
    simp [resolveExpires, ht]
  constructor
  · unfold Cookie.set
    simp only [hre, if_neg hok]
  · intro e1 e2
    unfold Cookie.set
    have httl : ∀ e : Option ExpiresAttr,
        ({ attributes with expires := e } : CookieAttributes).ttl = attributes.ttl := fun _ => rfl
    simp only [attrTail_set_expires, httl, hre]

theorem C2_witness :
    resolveTtl (none : Option Int) (some 60) = some 60 ∧ (60 : Int) ≠ 0 ∧
    ¬((({} : CookieAttributes)).sameSite = some SameSite.NoneSite ∧
      ({} : CookieAttributes).secure = false) ∧
    (Cookie.set (fun _ => none) 0 (some 60) "k" (.jval (.jstr "v")) {}).result =
      .ok (baseSeg "k" (.jval (.jstr "v")) ++ expSeg (some (0 + 60 * 1000)) ++
        attrTail {}) :=
  ⟨rfl, by decide, by decide,
    (C2_ttl_overrides_expires (fun _ => none) 0 (some 60) "k" (.jval (.jstr "v")) {} 60
      rfl (by decide) (by decide)).1⟩

/-- C3: at the failing input (a process-wide default TTL of 60 seconds in
effect), `remove` writes the key with an expiration of `now + 60` seconds
— a future instant, which does not force deletion — because `set`
substitutes the default TTL and lets it override the `Date(0)` that
`remove` supplies; with no default TTL in effect, the expiration is the
epoch, in the past as the claim requires. -/
theorem C3_remove_default_ttl_divergence :
    (Cookie.remove (fun _ => none) 1700000000000 (some 60) "k" {}).result =
      .ok ("k=; expires=" ++ toUTCString (1700000000000 + 60 * 1000)) ∧
    (1700000000000 : Int) < 1700000000000 + 60 * 1000 ∧
    (Cookie.remove (fun _ => none) 1700000000000 none "k" {}).result =
      .ok ("k=; expires=" ++ toUTCString 0) ∧
    (0 : Int) < 1700000000000 :=
  ⟨by decide, by decide, by decide, by decide⟩

/-- C4 counterexample: a non-serializable value is written as `key=`
(with the `=` sign and an empty value), not as the bare key that
`null`/`undefined` produce. -/
theorem C4_counterexample :
    (Cookie.set (fun _ => none) 0 none "k" .badObj {}).result = .ok "k=" ∧
    (Cookie.set (fun _ => none) 0 none "k" (.jval .jnull) {}).result = .ok "k" ∧
    ("k=" : String) ≠ "k" :=
  ⟨by decide, by decide, by decide⟩

/-- C4 amended: when structured serialization fails, `set` does not
throw — the encoder returns the empty string and the call behaves exactly
as if the value were the empty string, so the entry is written as
`key=` (key, equals sign, empty value), a different shape from the bare
key written for `null`/`undefined`. -/
theorem C4_stringify_failure_empty_value (dateParse : String → Option Int) (now : Int)
    (defaultTtl : Option Int) (key : String) (attributes : CookieAttributes) :
    Cookie.set dateParse now defaultTtl key .badObj attributes =
      Cookie.set dateParse now defaultTtl key (.jval (.jstr "")) attributes ∧
    baseSeg key .badObj = key ++ "=" ∧
    baseSeg key (.jval .jnull) = key ∧
    cookieStringify .badObj = "" := by
  refine ⟨rfl, ?_, rfl, rfl⟩
  show key ++ "=" ++ cookieStringify .badObj = key ++ "="
  rw [show cookieStringify .badObj = "" from rfl, String.append_empty]

/-- C5 counterexample: the string `"1"` is a plain string whose encoded
form parses as structured syntax, so it decodes to the number `1`, not to
the original string — the round trip fails for strings that are valid
JSON. -/
theorem C5_counterexample :
    decodeRaw (cookieStringify (.jval (.jstr "1"))) = .jval (.jnum 1) ∧
    JSValue.jval (.jnum 1) ≠ .jval (.jstr "1") :=
  ⟨by decide, by decide⟩

/-- C5 amended: `Decode(Encode(v)) = v` holds for numbers, booleans,
arrays and objects, and for exactly those strings that are not valid
structured syntax (parse failure returns the raw string unchanged);
`null` and `undefined` round-trip through the absent path: `set` writes
the bare key, and `get` on such an entry resolves to `fallback ?? null`. -/
theorem C5_roundtrip_amended :
    (∀ n : Int, decodeRaw (cookieStringify (.jval (.jnum n))) = .jval (.jnum n)) ∧
    (∀ b : Bool, decodeRaw (cookieStringify (.jval (.jbool b))) = .jval (.jbool b)) ∧
    (∀ a : JArr, decodeRaw (cookieStringify (.jval (.jarr a))) = .jval (.jarr a)) ∧
    (∀ o : JObj, decodeRaw (cookieStringify (.jval (.jobj o))) = .jval (.jobj o)) ∧
    (∀ s : String, jsonParse s = none →
      decodeRaw (cookieStringify (.jval (.jstr s))) = .jval (.jstr s)) ∧
    (∀ (dateParse : String → Option Int) (now : Int) (key : String) (value : JSValue),
      (value = .undef ∨ value = .jval .jnull) → '=' ∉ key.toList →
      ∀ fallback : JSValue,
        (Cookie.set dateParse now none key value {}).result = .ok key ∧
        Cookie.get key key fallback =
          (if fallback = .undef then .jval .jnull else fallback)) := by
  refine ⟨?_, ?_, ?_, ?_, ?_, ?_⟩
  · intro n
    show decodeRaw (printJson (.jnum n)) = .jval (.jnum n)
    simp [decodeRaw, jsonParse_printJson]
  · intro b
    cases b with
    | true => decide
    | false => decide
  · intro a
    show decodeRaw (printJson (.jarr a)) = .jval (.jarr a)
    simp [decodeRaw, jsonParse_printJson]
  · intro o
    show decodeRaw (printJson (.jobj o)) = .jval (.jobj o)
    simp [decodeRaw, jsonParse_printJson]
  · intro s h
    show decodeRaw s = .jval (.jstr s)
    simp [decodeRaw, h]
  · intro dateParse now key value hv hk fallback
    constructor
    · rcases hv with rfl | rfl <;>
        simp [Cookie.set, baseSeg, resolveTtl, resolveExpires, expiresNorm, expSeg, attrTail,
          String.append_empty]
    · simp [Cookie.get, regexExec_none_of_no_eq key key hk]

theorem C5_witness :
    jsonParse "hello" = none ∧
    decodeRaw (cookieStringify (.jval (.jstr "hello"))) = .jval (.jstr "hello") ∧
    ('=' ∉ ("k" : String).toList) ∧
    (Cookie.set (fun _ => none) 0 none "k" (.jval .jnull) {}).result = .ok "k" ∧
    Cookie.get "k" "k" (.jval (.jstr "FB")) =
      (if (JSValue.jval (.jstr "FB")) = .undef then .jval .jnull
       else .jval (.jstr "FB")) :=
  ⟨by decide,
    C5_roundtrip_amended.2.2.2.2.1 "hello" (by decide),
    by decide,
    (C5_roundtrip_amended.2.2.2.2.2 (fun _ => none) 0 "k" (.jval .jnull) (Or.inr rfl)
      (by decide) (.jval (.jstr "FB"))).1,
    (C5_roundtrip_amended.2.2.2.2.2 (fun _ => none) 0 "k" (.jval .jnull) (Or.inr rfl)
      (by decide) (.jval (.jstr "FB"))).2⟩

/-- C6 counterexample: for a stored entry `k=` (empty raw value), `get`
returns the empty string (the raw string, via the parse-failure
fallback), not the not-found fallback and not `null`. -/
theorem C6_counterexample :
    regexExec "k=" "k" = some "" ∧
    Cookie.get "k=" "k" (.jval .jnull) = .jval (.jstr "") ∧
    Cookie.get "k=" "k" (.jval (.jstr "FB")) = .jval (.jstr "") ∧
    JSValue.jval (.jstr "") ≠ .jval .jnull ∧
    JSValue.jval (.jstr "") ≠ .jval (.jstr "FB") :=
  ⟨by decide, by decide, by decide, by decide, by decide⟩

/-- C6 amended: when the lookup finds the key with an empty raw value,
`get` returns the empty string for every fallback — `JSON.parse("")`
throws, so the raw string is returned unchanged; the not-found/default
path is not taken. -/
theorem C6_empty_raw_returns_empty_string (doc key : String) (fallback : JSValue)
    (h : regexExec doc key = some "") :
    Cookie.get doc key fallback = .jval (.jstr "") := by
  simp only [Cookie.get, h]
  decide

theorem C6_witness :
    regexExec "k=" "k" = some "" ∧
    Cookie.get "k=" "k" (.jval (.jstr "FB")) = .jval (.jstr "") :=
  ⟨by decide, C6_empty_raw_returns_empty_string "k=" "k" (.jval (.jstr "FB")) (by decide)⟩

/-- C7 counterexample: on a miss, `remember` returns what `set` returns —
the full formatted cookie string (here `"k=x"`), not the produced value
`"x"`. -/
theorem C7_counterexample :
    (Cookie.remember (fun _ => none) 0 none "" "k" (fun _ => .jval (.jstr "x")) {}).result =
      .ok (.jval (.jstr "k=x")) ∧
    JSValue.jval (.jstr "k=x") ≠ .jval (.jstr "x") :=
  ⟨by decide, by decide⟩

/-- C7 amended: when `get(key, null)` returns `null`, `remember` invokes
the producer exactly once, hands `set` the produced value with the given
attributes (so the produced value is formatted and written), and returns
what `set` returns — the formatted cookie string; when `get(key, null)`
is non-`null`, `remember` returns that decoded value, writes nothing and
never invokes the producer. -/
theorem C7_remember_amended (dateParse : String → Option Int) (now : Int)
    (defaultTtl : Option Int) (doc key : String) (producer : Unit → JSValue)
    (attributes : CookieAttributes) :
    (Cookie.get doc key (.jval .jnull) = .jval .jnull →
      Cookie.remember dateParse now defaultTtl doc key producer attributes =
        { result :=
            match (Cookie.set dateParse now defaultTtl key (producer ()) attributes).result with
            | .ok s => .ok (.jval (.jstr s))
            | .thrown m => .thrown m,
          writes := (Cookie.set dateParse now defaultTtl key (producer ()) attributes).writes,
          producerCalls := 1 }) ∧
    (Cookie.get doc key (.jval .jnull) ≠ .jval .jnull →
      Cookie.remember dateParse now defaultTtl doc key producer attributes =
        { result := .ok (Cookie.get doc key (.jval .jnull)), writes := [],
          producerCalls := 0 }) := by
  constructor
  · intro h
    simp only [Cookie.remember, if_pos h]
  · intro h
    simp only [Cookie.remember, if_neg h]

theorem C7_witness :
    Cookie.get "" "k" (.jval .jnull) = .jval .jnull ∧
    Cookie.remember (fun _ => none) 0 none "" "k" (fun _ => .jval (.jstr "x")) {} =
      { result :=
          match (Cookie.set (fun _ => none) 0 none "k"
              ((fun _ => JSValue.jval (.jstr "x")) ()) {}).result with
          | .ok s => .ok (.jval (.jstr s))
          | .thrown m => .thrown m,
        writes := (Cookie.set (fun _ => none) 0 none "k"
          ((fun _ => JSValue.jval (.jstr "x")) ()) {}).writes,
        producerCalls := 1 } ∧
    Cookie.get "k=y" "k" (.jval .jnull) ≠ .jval .jnull ∧
    Cookie.remember (fun _ => none) 0 none "k=y" "k" (fun _ => .jval (.jstr "x")) {} =
      { result := .ok (Cookie.get "k=y" "k" (.jval .jnull)), writes := [],
        producerCalls := 0 } :=
  ⟨by decide,
    (C7_remember_amended (fun _ => none) 0 none "" "k" (fun _ => .jval (.jstr "x")) {}).1
      (by decide),
    by decide,
    (C7_remember_amended (fun _ => none) 0 none "k=y" "k" (fun _ => .jval (.jstr "x")) {}).2
      (by decide)⟩

/-- C8: `has(key)` is exactly the truthiness of `get(key, null)` — in
particular it is `false` for keys whose entries are present in the store
with raw values `""`, `"false"` and `"0"`. -/
theorem C8_has_iff_truthy :
    (∀ doc key : String, Cookie.has doc key = jsTruthy (Cookie.get doc key (.jval .jnull))) ∧
    (regexExec "k=" "k" = some "" ∧ Cookie.has "k=" "k" = false) ∧
    (regexExec "k=false" "k" = some "false" ∧ Cookie.has "k=false" "k" = false) ∧
    (regexExec "k=0" "k" = some "0" ∧ Cookie.has "k=0" "k" = false) ∧
    (regexExec "k=v" "k" = some "v" ∧ Cookie.has "k=v" "k" = true) :=
  ⟨fun _ _ => rfl, ⟨by decide, by decide⟩, ⟨by decide, by decide⟩, ⟨by decide, by decide⟩,
    ⟨by decide, by decide⟩⟩

/-- C9 counterexample: after `ttl(0)` (a value of `N = 0`), a `set` call
with no per-call `ttl` produces an entry with no expiration segment at
all, not one expiring `0` seconds from now — `0` is falsy, so the
override never runs. -/
theorem C9_counterexample :
    (Cookie.set (fun _ => none) 5 (some 0) "k" (.jval (.jstr "v")) {}).result = .ok "k=v" ∧
    ¬ strContains "k=v" "expires" :=
  ⟨by decide, by decide⟩

/-- C9 amended: for every non-zero `N`, after `ttl(N)` a `set` whose own
`ttl` is absent formats an expiration of `N` seconds from now; `touch`
with an absent `ttl` on an existing key does the same; a per-call `ttl`
makes the default irrelevant; and after `ttl(null)` a `set` with no `ttl`
and no `expires` emits no expiration segment. -/
theorem C9_default_ttl_amended :
    (∀ (dateParse : String → Option Int) (now N : Int) (key : String) (value : JSValue)
      (attributes : CookieAttributes), attributes.ttl = none → N ≠ 0 →
      ¬(attributes.sameSite = some SameSite.NoneSite ∧ attributes.secure = false) →
      (Cookie.set dateParse now (some N) key value attributes).result =
        .ok (baseSeg key value ++ expSeg (some (now + N * 1000)) ++ attrTail attributes)) ∧
    (∀ (dateParse : String → Option Int) (now N : Int) (doc key : String) (a : Cookie.PathAttr),
      N ≠ 0 → Cookie.get doc key (.jval .jnull) ≠ .jval .jnull →
      Cookie.touch dateParse now (some N) doc key none a =
        some (Cookie.set dateParse now (some N) key (Cookie.get doc key (.jval .jnull))
          { ttl := some N, path := a.path }) ∧
      (Cookie.set dateParse now (some N) key (Cookie.get doc key (.jval .jnull))
          { ttl := some N, path := a.path }).result =
        .ok (baseSeg key (Cookie.get doc key (.jval .jnull)) ++
          expSeg (some (now + N * 1000)) ++ attrTail { ttl := some N, path := a.path })) ∧
    (∀ (dateParse : String → Option Int) (now : Int) (defaultTtl : Option Int) (key : String)
      (value : JSValue) (attributes : CookieAttributes) (t : Int), attributes.ttl = some t →
      Cookie.set dateParse now defaultTtl key value attributes =
        Cookie.set dateParse now none key value attributes) ∧
    (∀ (dateParse : String → Option Int) (now : Int) (key : String) (value : JSValue)
      (attributes : CookieAttributes), attributes.ttl = none → attributes.expires = none →
      ¬(attributes.sameSite = some SameSite.NoneSite ∧ attributes.secure = false) →
      (Cookie.set dateParse now none key value attributes).result =
        .ok (baseSeg key value ++ attrTail attributes)) := by
  refine ⟨?_, ?_, ?_, ?_⟩
  · intro dateParse now N key value attributes hn hN hok
    have hre : resolveExpires dateParse now (resolveTtl attributes.ttl (some N))
        attributes.expires = some (now + N * 1000) := by
      rw [hn]
      simp [resolveTtl, resolveExpires, hN]
    unfold Cookie.set
    simp only [hre, if_neg hok]
  · intro dateParse now N doc key a hN hget
    constructor
    · simp only [Cookie.touch, if_neg hget]
    · have hre : resolveExpires dateParse now
          (resolveTtl ({ ttl := some N, path := a.path } : CookieAttributes).ttl (some N))
          ({ ttl := some N, path := a.path } : CookieAttributes).expires =
          some (now + N * 1000) := by
        simp [resolveTtl, resolveExpires, hN]
      unfold Cookie.set
      simp only [hre]
      rw [if_neg (by simp)]
  · intro dateParse now defaultTtl key value attributes t h
    unfold Cookie.set
    rw [h]
    simp [resolveTtl]
  · intro dateParse now key value attributes hn he hok
    have hre : resolveExpires dateParse now (resolveTtl attributes.ttl none)
        attributes.expires = none := by
      rw [hn, he]
      simp [resolveTtl, resolveExpires, expiresNorm]
    unfold Cookie.set
    simp only [hre, if_neg hok]
    rw [show expSeg none = "" from rfl, String.append_empty]

theorem C9_witness :
    (({} : CookieAttributes).ttl = none) ∧ ((60 : Int) ≠ 0) ∧
    (¬((({} : CookieAttributes)).sameSite = some SameSite.NoneSite ∧
      ({} : CookieAttributes).secure = false)) ∧
    ((Cookie.set (fun _ => none) 0 (some 60) "k" (.jval (.jstr "v")) {}).result =
      .ok (baseSeg "k" (.jval (.jstr "v")) ++ expSeg (some (0 + 60 * 1000)) ++ attrTail {})) ∧
    (Cookie.get "k=v" "k" (.jval .jnull) ≠ .jval .jnull) ∧
    (Cookie.touch (fun _ => none) 0 (some 60) "k=v" "k" none {} =
      some (Cookie.set (fun _ => none) 0 (some 60) "k" (Cookie.get "k=v" "k" (.jval .jnull))
        { ttl := some 60, path := ({} : Cookie.PathAttr).path })) ∧
    (({ ttl := some 7 } : CookieAttributes).ttl = some 7) ∧
    (Cookie.set (fun _ => none) 0 (some 60) "k" (.jval (.jstr "v")) { ttl := some 7 } =
      Cookie.set (fun _ => none) 0 none "k" (.jval (.jstr "v")) { ttl := some 7 }) ∧
    ((Cookie.set (fun _ => none) 0 none "k" (.jval (.jstr "v")) {}).result =
      .ok (baseSeg "k" (.jval (.jstr "v")) ++ attrTail {})) :=
  ⟨rfl, by decide, by decide,
    C9_default_ttl_amended.1 (fun _ => none) 0 60 "k" (.jval (.jstr "v")) {} rfl (by decide)
      (by decide),
    by decide,
    (C9_default_ttl_amended.2.1 (fun _ => none) 0 60 "k=v" "k" {} (by decide) (by decide)).1,
    rfl,
    C9_default_ttl_amended.2.2.1 (fun _ => none) 0 (some 60) "k" (.jval (.jstr "v"))
      { ttl := some 7 } 7 rfl,
    C9_default_ttl_amended.2.2.2 (fun _ => none) 0 "k" (.jval (.jstr "v")) {} rfl rfl
      (by decide)⟩

/-- C10: `set` mutates the caller-supplied attributes record in place:
the resolved TTL (after default substitution) and the final normalized
expiration `Date` are written back into it, so the record a caller reuses
after the call carries the resolved TTL, which then shadows any later
default. -/
theorem C10_attributes_mutated (dateParse : String → Option Int) (now : Int)
    (defaultTtl : Option Int) (key : String) (value : JSValue)
    (attributes : CookieAttributes) :
    (Cookie.set dateParse now defaultTtl key value attributes).attrs =
      { attributes with
        ttl := resolveTtl attributes.ttl defaultTtl,
        expires := (resolveExpires dateParse now (resolveTtl attributes.ttl defaultTtl)
          attributes.expires).map ExpiresAttr.date } ∧
    ∀ (defaultTtl2 : Option Int) (t : Int),
      (Cookie.set dateParse now defaultTtl key value attributes).attrs.ttl = some t →
      resolveTtl ((Cookie.set dateParse now defaultTtl key value attributes).attrs.ttl)
        defaultTtl2 = some t := by
  constructor
  · unfold Cookie.set
    split <;> rfl
  · intro d2 t h
    rw [h]
    rfl

theorem C10_witness :
    (Cookie.set (fun _ => none) 0 (some 60) "k" (.jval (.jstr "v")) {}).attrs.ttl = some 60 ∧
    resolveTtl ((Cookie.set (fun _ => none) 0 (some 60) "k"
      (.jval (.jstr "v")) {}).attrs.ttl) none = some 60 :=
  ⟨by decide,
    (C10_attributes_mutated (fun _ => none) 0 (some 60) "k" (.jval (.jstr "v")) {}).2 none 60
      (by decide)⟩
